import Mathlib

/-!
Shallow embedding of `object_detection/utils/motion_util.py` (Motion R-CNN).

Tensor rows are modelled as functions `Fin n → ℝ`; a batch is a family
indexed by `Fin N`.  TensorFlow float arithmetic is modelled over the
reals; `tf.sqrt` of a negative argument yields NaN in TensorFlow and is
modelled with `Option` where the code guards the result with
`tf.check_numerics` (which raises on NaN/Inf).
-/

namespace MotionUtil

open Matrix

/-- Rotation about the x axis as built in `euler_to_rot`:
rows `[1,0,0], [0,cos,-sin], [0,sin,cos]`. -/
def rot_x_mat (s c : ℝ) : Matrix (Fin 3) (Fin 3) ℝ :=
  !![1, 0, 0; 0, c, -s; 0, s, c]

/-- Rotation about the y axis as built in `euler_to_rot`:
rows `[cos,0,sin], [0,1,0], [-sin,0,cos]`. -/
def rot_y_mat (s c : ℝ) : Matrix (Fin 3) (Fin 3) ℝ :=
  !![c, 0, s; 0, 1, 0; -s, 0, c]

/-- Rotation about the z axis as built in `euler_to_rot`:
rows `[cos,-sin,0], [sin,cos,0], [0,0,1]`. -/
def rot_z_mat (s c : ℝ) : Matrix (Fin 3) (Fin 3) ℝ :=
  !![c, -s, 0; s, c, 0; 0, 0, 1]

/-- The matrix product `rot_z @ rot_x @ rot_y` returned by `euler_to_rot`,
parameterised by the sines and cosines of the three angles. -/
def euler_to_rot_core (sx cx sy cy sz cz : ℝ) : Matrix (Fin 3) (Fin 3) ℝ :=
  rot_z_mat sz cz * rot_x_mat sx cx * rot_y_mat sy cy

/-- `euler_to_rot` with `sine_inputs=False` (the default): the inputs are
raw angles in radians, sines and cosines are taken with `tf.sin`/`tf.cos`. -/
noncomputable def euler_to_rot (x y z : ℝ) : Matrix (Fin 3) (Fin 3) ℝ :=
  euler_to_rot_core (Real.sin x) (Real.cos x) (Real.sin y) (Real.cos y)
    (Real.sin z) (Real.cos z)

/-- `tf.sqrt` followed by `tf.check_numerics`: for a negative argument
`tf.sqrt` returns NaN and the check raises, modelled as `none`. -/
noncomputable def sqrt_checked (v : ℝ) : Option ℝ :=
  if 0 ≤ v then some (Real.sqrt v) else none

/-- `euler_to_rot` with `sine_inputs=True`: the inputs are angle sines,
the cosines are recovered as `sqrt(1 - sin^2)` and each passes through
`tf.check_numerics`. -/
noncomputable def euler_to_rot_sines (x y z : ℝ) : Option (Matrix (Fin 3) (Fin 3) ℝ) := do
  let cx ← sqrt_checked (1 - x ^ 2)
  let cy ← sqrt_checked (1 - y ^ 2)
  let cz ← sqrt_checked (1 - z ^ 2)
  some (euler_to_rot_core x cx y cy z cz)

/-- `tf.reshape(v, [3, 3])` for a flat row of 9 values (row-major). -/
def unflatten (g : Fin 9 → ℝ) : Matrix (Fin 3) (Fin 3) ℝ :=
  fun i j => g ⟨3 * (i : ℕ) + (j : ℕ), by omega⟩

/-- `tf.reshape(R, [9])`: row-major flattening of a 3×3 matrix. -/
def flattenRot (R : Matrix (Fin 3) (Fin 3) ℝ) : Fin 9 → ℝ :=
  fun i => R ⟨(i : ℕ) / 3, by omega⟩ ⟨(i : ℕ) % 3, by omega⟩

/-- `postprocess_detection_motions` on one 9-dim prediction row: the first
three entries are fed to `euler_to_rot` (with its default
`sine_inputs=False`), the resulting matrix is flattened and concatenated
with the remaining six entries `pred[3:]`. -/
noncomputable def postprocess_detection_motions (pred : Fin 9 → ℝ) : Fin 15 → ℝ :=
  Fin.append (flattenRot (euler_to_rot (pred 0) (pred 1) (pred 2)))
    (fun i : Fin 6 => pred (i.addNat 3))

/-- `tf.norm(v, axis=1)` on a 3-vector: the Euclidean norm. -/
noncomputable def norm3 (v : Fin 3 → ℝ) : ℝ :=
  Real.sqrt (v 0 ^ 2 + v 1 ^ 2 + v 2 ^ 2)

/-- `tf.clip_by_value(v, -1, 1)`. -/
noncomputable def clip1 (v : ℝ) : ℝ := max (-1) (min 1 v)

/-- The angular error of `_motion_losses`:
`acos(clip((trace(rotᵀ @ gt_rot) - 1) / 2, -1, 1))`. -/
noncomputable def errAngle (rot gt_rot : Matrix (Fin 3) (Fin 3) ℝ) : ℝ :=
  Real.arccos (clip1 ((Matrix.trace (rotᵀ * gt_rot) - 1) / 2))

/-- `_motion_losses` on one prediction/target row pair: postprocesses the
prediction, splits both rows into rotation / translation / pivot, and
returns `(err_angle, err_trans, err_pivot)`. -/
noncomputable def _motion_losses (pred : Fin 9 → ℝ) (target : Fin 15 → ℝ) :
    ℝ × ℝ × ℝ :=
  let pred15 := postprocess_detection_motions pred
  let rot := unflatten (fun i : Fin 9 => pred15 ⟨(i : ℕ), by omega⟩)
  let trans : Fin 3 → ℝ := fun i => pred15 ⟨9 + (i : ℕ), by omega⟩
  let pivot : Fin 3 → ℝ := fun i => pred15 ⟨12 + (i : ℕ), by omega⟩
  let gt_rot := unflatten (fun i : Fin 9 => target ⟨(i : ℕ), by omega⟩)
  let gt_trans : Fin 3 → ℝ := fun i => target ⟨9 + (i : ℕ), by omega⟩
  let gt_pivot : Fin 3 → ℝ := fun i => target ⟨12 + (i : ℕ), by omega⟩
  (errAngle rot gt_rot,
   norm3 (fun i => gt_trans i - trans i),
   norm3 (fun i => gt_pivot i - pivot i))

/-- `motion_loss`: the batch/anchor axes are flattened to one index; the
per-anchor loss is the sum of the three `_motion_losses` components scaled
by the anchor weight. -/
noncomputable def motion_loss (N : ℕ) (pred : Fin N → Fin 9 → ℝ)
    (target : Fin N → Fin 15 → ℝ) (weights : Fin N → ℝ) : Fin N → ℝ :=
  fun n =>
    let e := _motion_losses (pred n) (target n)
    (e.1 + e.2.1 + e.2.2) * weights n

/-- `camera_motion_loss`: both rows are extended with a zero mock pivot,
fed to `_motion_losses`, and the angle and translation errors are summed
(the pivot error is discarded; there is no weight factor). -/
noncomputable def camera_motion_loss (N : ℕ) (pred : Fin N → Fin 6 → ℝ)
    (target : Fin N → Fin 12 → ℝ) : Fin N → ℝ :=
  fun n =>
    let e := _motion_losses
      (Fin.append (pred n) (fun _ : Fin 3 => (0 : ℝ)))
      (Fin.append (target n) (fun _ : Fin 3 => (0 : ℝ)))
    e.1 + e.2.1

/-- `get_3D_coords` at one pixel: `x` is the column index, `y` the row
index (from `tf.meshgrid`), `d` the depth there; the output is
`[(x - x0) * d / f, (y - y0) * d / f, d]`. -/
noncomputable def get_3D_coords (depth : ℕ → ℕ → ℝ) (f x0 y0 : ℝ)
    (row col : ℕ) : Fin 3 → ℝ :=
  let x : ℝ := (col : ℝ)
  let y : ℝ := (row : ℝ)
  let d := depth row col
  let factor := d / f
  ![(x - x0) * factor, (y - y0) * factor, d]

lemma rot_x_mat_orth (s c : ℝ) (h : s ^ 2 + c ^ 2 = 1) :
    (rot_x_mat s c)ᵀ * rot_x_mat s c = 1 := by
  have ht : (rot_x_mat s c)ᵀ = !![1, 0, 0; 0, c, s; 0, -s, c] := by
    ext i j; fin_cases i <;> fin_cases j <;> simp [rot_x_mat, Matrix.vecHead, Matrix.vecTail, Function.comp]
  rw [ht, rot_x_mat, Matrix.mul_fin_three, Matrix.one_fin_three]
  ext i j
  fin_cases i <;> fin_cases j <;> simp [Matrix.vecHead, Matrix.vecTail] <;> nlinarith [h]

lemma rot_y_mat_orth (s c : ℝ) (h : s ^ 2 + c ^ 2 = 1) :
    (rot_y_mat s c)ᵀ * rot_y_mat s c = 1 := by
  have ht : (rot_y_mat s c)ᵀ = !![c, 0, -s; 0, 1, 0; s, 0, c] := by
    ext i j; fin_cases i <;> fin_cases j <;> simp [rot_y_mat, Matrix.vecHead, Matrix.vecTail, Function.comp]
  rw [ht, rot_y_mat, Matrix.mul_fin_three, Matrix.one_fin_three]
  ext i j
  fin_cases i <;> fin_cases j <;> simp [Matrix.vecHead, Matrix.vecTail] <;> nlinarith [h]

lemma rot_z_mat_orth (s c : ℝ) (h : s ^ 2 + c ^ 2 = 1) :
    (rot_z_mat s c)ᵀ * rot_z_mat s c = 1 := by
  have ht : (rot_z_mat s c)ᵀ = !![c, s, 0; -s, c, 0; 0, 0, 1] := by
    ext i j; fin_cases i <;> fin_cases j <;> simp [rot_z_mat, Matrix.vecHead, Matrix.vecTail, Function.comp]
  rw [ht, rot_z_mat, Matrix.mul_fin_three, Matrix.one_fin_three]
  ext i j
  fin_cases i <;> fin_cases j <;> simp [Matrix.vecHead, Matrix.vecTail] <;> nlinarith [h]

lemma euler_to_rot_core_orth (sx cx sy cy sz cz : ℝ)
    (hx : sx ^ 2 + cx ^ 2 = 1) (hy : sy ^ 2 + cy ^ 2 = 1)
    (hz : sz ^ 2 + cz ^ 2 = 1) :
    (euler_to_rot_core sx cx sy cy sz cz)ᵀ * euler_to_rot_core sx cx sy cy sz cz = 1 := by
  unfold euler_to_rot_core
  rw [Matrix.transpose_mul, Matrix.transpose_mul]
  calc ((rot_y_mat sy cy)ᵀ * ((rot_x_mat sx cx)ᵀ * (rot_z_mat sz cz)ᵀ)) *
        (rot_z_mat sz cz * rot_x_mat sx cx * rot_y_mat sy cy)
      = (rot_y_mat sy cy)ᵀ * ((rot_x_mat sx cx)ᵀ *
          (((rot_z_mat sz cz)ᵀ * rot_z_mat sz cz) * rot_x_mat sx cx) * rot_y_mat sy cy) := by
        simp only [Matrix.mul_assoc]
    _ = 1 := by
        rw [rot_z_mat_orth sz cz hz, Matrix.one_mul, rot_x_mat_orth sx cx hx,
          Matrix.one_mul, rot_y_mat_orth sy cy hy]

lemma euler_to_rot_core_det (sx cx sy cy sz cz : ℝ)
    (hx : sx ^ 2 + cx ^ 2 = 1) (hy : sy ^ 2 + cy ^ 2 = 1)
    (hz : sz ^ 2 + cz ^ 2 = 1) :
    (euler_to_rot_core sx cx sy cy sz cz).det = 1 := by
  unfold euler_to_rot_core
  rw [Matrix.det_mul, Matrix.det_mul]
  have dx : (rot_x_mat sx cx).det = 1 := by
    simp [rot_x_mat, Matrix.det_fin_three]; nlinarith [hx]
  have dy : (rot_y_mat sy cy).det = 1 := by
    simp [rot_y_mat, Matrix.det_fin_three]; nlinarith [hy]
  have dz : (rot_z_mat sz cz).det = 1 := by
    simp [rot_z_mat, Matrix.det_fin_three]; nlinarith [hz]
  rw [dx, dy, dz]; ring

/-- C6: for every batch of raw angle inputs (`sine_inputs=False`), each
matrix returned by `euler_to_rot` satisfies `RᵀR = 1` and `det R = 1`
exactly over the reals. -/
theorem C6_euler_to_rot_orthonormal (x y z : ℝ) :
    (euler_to_rot x y z)ᵀ * euler_to_rot x y z = 1 ∧
      (euler_to_rot x y z).det = 1 := by
  constructor
  · exact euler_to_rot_core_orth _ _ _ _ _ _
      (Real.sin_sq_add_cos_sq x) (Real.sin_sq_add_cos_sq y) (Real.sin_sq_add_cos_sq z)
  · exact euler_to_rot_core_det _ _ _ _ _ _
      (Real.sin_sq_add_cos_sq x) (Real.sin_sq_add_cos_sq y) (Real.sin_sq_add_cos_sq z)

lemma postprocess_left (pred : Fin 9 → ℝ) (i : Fin 9) :
    postprocess_detection_motions pred ⟨(i : ℕ), by omega⟩ =
      flattenRot (euler_to_rot (pred 0) (pred 1) (pred 2)) i := by
  have hcast : (⟨(i : ℕ), by omega⟩ : Fin 15) = Fin.castAdd 6 i := rfl
  rw [postprocess_detection_motions, hcast, Fin.append_left]

lemma postprocess_right (pred : Fin 9 → ℝ) (i : Fin 6) :
    postprocess_detection_motions pred ⟨9 + (i : ℕ), by omega⟩ =
      pred ⟨(i : ℕ) + 3, by omega⟩ := by
  have hcast : (⟨9 + (i : ℕ), by omega⟩ : Fin 15) = Fin.natAdd 9 i := rfl
  rw [postprocess_detection_motions, hcast, Fin.append_right]
  congr 1

lemma unflatten_flattenRot (R : Matrix (Fin 3) (Fin 3) ℝ) :
    unflatten (flattenRot R) = R := by
  ext i j
  fin_cases i <;> fin_cases j <;> rfl

lemma pred15_trans (pred : Fin 9 → ℝ) (i : Fin 3) :
    postprocess_detection_motions pred ⟨9 + (i : ℕ), by omega⟩ =
      pred ⟨(i : ℕ) + 3, by omega⟩ :=
  postprocess_right pred (⟨(i : ℕ), by omega⟩ : Fin 6)

lemma pred15_pivot (pred : Fin 9 → ℝ) (i : Fin 3) :
    postprocess_detection_motions pred ⟨12 + (i : ℕ), by omega⟩ =
      pred ⟨(i : ℕ) + 6, by omega⟩ := by
  have e1 : (⟨12 + (i : ℕ), by omega⟩ : Fin 15) =
      ⟨9 + ((⟨3 + (i : ℕ), by omega⟩ : Fin 6) : ℕ), by omega⟩ := by
    apply Fin.ext
    show 12 + (i : ℕ) = 9 + (3 + (i : ℕ))
    omega
  have e2 : (⟨((⟨3 + (i : ℕ), by omega⟩ : Fin 6) : ℕ) + 3, by omega⟩ : Fin 9) =
      ⟨(i : ℕ) + 6, by omega⟩ := by
    apply Fin.ext
    show 3 + (i : ℕ) + 3 = (i : ℕ) + 6
    omega
  rw [e1, postprocess_right pred (⟨3 + (i : ℕ), by omega⟩ : Fin 6), e2]

/-- The three components of `_motion_losses`, written out: the predicted
rotation is `euler_to_rot` of the first three prediction entries, the
target rotation is the reshaped first nine target entries, and the
translation / pivot errors are plain Euclidean norms of differences of the
corresponding columns. -/
lemma motion_losses_spec (pred : Fin 9 → ℝ) (target : Fin 15 → ℝ) :
    _motion_losses pred target =
      (errAngle (euler_to_rot (pred 0) (pred 1) (pred 2))
          (unflatten (fun i : Fin 9 => target ⟨(i : ℕ), by omega⟩)),
       norm3 (fun i : Fin 3 => target ⟨9 + (i : ℕ), by omega⟩ - pred ⟨(i : ℕ) + 3, by omega⟩),
       norm3 (fun i : Fin 3 => target ⟨12 + (i : ℕ), by omega⟩ - pred ⟨(i : ℕ) + 6, by omega⟩)) := by
  simp only [_motion_losses]
  refine congrArg₂ _ ?_ (congrArg₂ _ ?_ ?_)
  · have hr : (fun i : Fin 9 => postprocess_detection_motions pred ⟨(i : ℕ), by omega⟩) =
        flattenRot (euler_to_rot (pred 0) (pred 1) (pred 2)) := by
      funext i; exact postprocess_left pred i
    rw [hr, unflatten_flattenRot]
  · apply congrArg
    funext i
    show target ⟨9 + (i : ℕ), by omega⟩ -
        postprocess_detection_motions pred ⟨9 + (i : ℕ), by omega⟩ = _
    rw [pred15_trans pred i]
  · apply congrArg
    funext i
    show target ⟨12 + (i : ℕ), by omega⟩ -
        postprocess_detection_motions pred ⟨12 + (i : ℕ), by omega⟩ = _
    rw [pred15_pivot pred i]

/-- C10: `postprocess_detection_motions` passes translation and pivot
through unchanged — output columns 9..14 equal input columns 3..8, and the
first nine output columns are the flattened `euler_to_rot` rotation. -/
theorem C10_postprocess_passthrough (pred : Fin 9 → ℝ) :
    (∀ i : Fin 6, postprocess_detection_motions pred ⟨9 + (i : ℕ), by omega⟩ =
        pred ⟨(i : ℕ) + 3, by omega⟩) ∧
    (∀ i : Fin 9, postprocess_detection_motions pred ⟨(i : ℕ), by omega⟩ =
        flattenRot (euler_to_rot (pred 0) (pred 1) (pred 2)) i) :=
  ⟨fun i => postprocess_right pred i, fun i => postprocess_left pred i⟩

/-- C2: for every 9-dim prediction row and 15-dim target row, the angular
error of the motion loss is `arccos(clip((trace(R_predᵀ·R_gt) - 1)/2, -1, 1))`
with `R_pred` the predicted rotation matrix (built by the postprocessing
from the first three prediction entries) and `R_gt` the 3×3 matrix reshaped
from the first nine target entries. -/
theorem C2_angular_error_formula (pred : Fin 9 → ℝ) (target : Fin 15 → ℝ) :
    (_motion_losses pred target).1 =
      Real.arccos (clip1 ((Matrix.trace
        ((euler_to_rot (pred 0) (pred 1) (pred 2))ᵀ *
          unflatten (fun i : Fin 9 => target ⟨(i : ℕ), by omega⟩)) - 1) / 2)) := by
  rw [motion_losses_spec]
  rfl

/-- C4: the per-anchor motion loss is the sum of the angular error, the
Euclidean norm of the unrotated translation difference and the Euclidean
norm of the unrotated pivot difference, multiplied by the anchor weight. -/
theorem C4_motion_loss_decomposition (N : ℕ) (pred : Fin N → Fin 9 → ℝ)
    (target : Fin N → Fin 15 → ℝ) (weights : Fin N → ℝ) (n : Fin N) :
    motion_loss N pred target weights n =
      (errAngle (euler_to_rot (pred n 0) (pred n 1) (pred n 2))
          (unflatten (fun i : Fin 9 => target n ⟨(i : ℕ), by omega⟩)) +
        norm3 (fun i : Fin 3 =>
          target n ⟨9 + (i : ℕ), by omega⟩ - pred n ⟨(i : ℕ) + 3, by omega⟩) +
        norm3 (fun i : Fin 3 =>
          target n ⟨12 + (i : ℕ), by omega⟩ - pred n ⟨(i : ℕ) + 6, by omega⟩)) *
      weights n := by
  simp only [motion_loss, motion_losses_spec]

/-- C5: `camera_motion_loss` equals the angle error plus the translation
error of `_motion_losses` applied to the inputs extended with a zero pivot,
with no weight factor; the pivot error of those extended inputs is zero. -/
theorem C5_camera_motion_loss_refines (N : ℕ) (pred : Fin N → Fin 6 → ℝ)
    (target : Fin N → Fin 12 → ℝ) (n : Fin N) :
    camera_motion_loss N pred target n =
      (_motion_losses (Fin.append (pred n) (fun _ : Fin 3 => (0 : ℝ)))
          (Fin.append (target n) (fun _ : Fin 3 => (0 : ℝ)))).1 +
      (_motion_losses (Fin.append (pred n) (fun _ : Fin 3 => (0 : ℝ)))
          (Fin.append (target n) (fun _ : Fin 3 => (0 : ℝ)))).2.1 ∧
    (_motion_losses (Fin.append (pred n) (fun _ : Fin 3 => (0 : ℝ)))
        (Fin.append (target n) (fun _ : Fin 3 => (0 : ℝ)))).2.2 = 0 := by
  constructor
  · rfl
  · rw [motion_losses_spec]
    have hzero : (fun i : Fin 3 =>
        Fin.append (target n) (fun _ : Fin 3 => (0 : ℝ)) ⟨12 + (i : ℕ), by omega⟩ -
        Fin.append (pred n) (fun _ : Fin 3 => (0 : ℝ)) ⟨(i : ℕ) + 6, by omega⟩) =
        fun _ => (0 : ℝ) := by
      funext i
      have ht : (⟨12 + (i : ℕ), by omega⟩ : Fin 15) =
          Fin.natAdd 12 (⟨(i : ℕ), by omega⟩ : Fin 3) := rfl
      have hp : (⟨(i : ℕ) + 6, by omega⟩ : Fin 9) =
          Fin.natAdd 6 (⟨(i : ℕ), by omega⟩ : Fin 3) := by
        apply Fin.ext
        show (i : ℕ) + 6 = 6 + (i : ℕ)
        omega
      rw [ht, hp, Fin.append_right, Fin.append_right, sub_zero]
    rw [hzero]
    simp [norm3, Real.sqrt_zero]

/-- C7 (amended): the angular error is symmetric under swapping the two
rotations for every pair of 3×3 matrices, because
`trace(R1ᵀ·R2) = trace(R2ᵀ·R1)`; symmetry is not restricted to the case
`R1 = R2`. -/
theorem C7_errAngle_symmetric (R1 R2 : Matrix (Fin 3) (Fin 3) ℝ) :
    errAngle R1 R2 = errAngle R2 R1 := by
  have htr : Matrix.trace (R1ᵀ * R2) = Matrix.trace (R2ᵀ * R1) := by
    rw [← Matrix.trace_transpose (R2ᵀ * R1), Matrix.transpose_mul,
      Matrix.transpose_transpose]
  rw [errAngle, errAngle, htr]

/-- C7 counterexample: a genuine rotation `Rz` with `sin = 4/5`,
`cos = 3/5` is distinct from the identity, yet the angular error between
the identity and `Rz` is the same in both argument orders — refuting the
claim that the error is symmetric only when the two rotations coincide. -/
theorem C7_counterexample :
    rot_z_mat (4 / 5) (3 / 5) ≠ (1 : Matrix (Fin 3) (Fin 3) ℝ) ∧
    (rot_z_mat (4 / 5) (3 / 5))ᵀ * rot_z_mat (4 / 5) (3 / 5) = 1 ∧
    (rot_z_mat (4 / 5) (3 / 5)).det = 1 ∧
    errAngle 1 (rot_z_mat (4 / 5) (3 / 5)) =
      errAngle (rot_z_mat (4 / 5) (3 / 5)) 1 := by
  refine ⟨?_, ?_, ?_, ?_⟩
  · intro h
    have h01 := congrFun (congrFun h 0) 1
    simp [rot_z_mat, Matrix.one_apply] at h01
  · exact rot_z_mat_orth _ _ (by norm_num)
  · norm_num [rot_z_mat, Matrix.det_fin_three]
  · have htr : Matrix.trace ((1 : Matrix (Fin 3) (Fin 3) ℝ)ᵀ * rot_z_mat (4 / 5) (3 / 5)) =
        Matrix.trace ((rot_z_mat (4 / 5) (3 / 5))ᵀ * 1) := by
      rw [Matrix.transpose_one, Matrix.one_mul, Matrix.mul_one, Matrix.trace_transpose]
    rw [errAngle, errAngle, htr]

lemma euler_to_rot_orth (x y z : ℝ) :
    (euler_to_rot x y z)ᵀ * euler_to_rot x y z = 1 :=
  euler_to_rot_core_orth _ _ _ _ _ _
    (Real.sin_sq_add_cos_sq x) (Real.sin_sq_add_cos_sq y) (Real.sin_sq_add_cos_sq z)

lemma errAngle_self_orth (R : Matrix (Fin 3) (Fin 3) ℝ) (h : Rᵀ * R = 1) :
    errAngle R R = 0 := by
  rw [errAngle, h]
  have htr : Matrix.trace (1 : Matrix (Fin 3) (Fin 3) ℝ) = 3 := by
    simp [Matrix.trace_one]
  rw [htr]
  norm_num [clip1, Real.arccos_one]

lemma norm3_zero_fun : norm3 (fun _ : Fin 3 => (0 : ℝ)) = 0 := by
  simp [norm3]

/-- C8: when the prediction describes exactly the target motion — the
target rotation matrix equals `euler_to_rot` of the predicted angles, and
the target translation / pivot equal the predicted ones — each error
component is zero and the weighted per-anchor motion loss is zero. -/
theorem C8_loss_zero_on_exact_match (N : ℕ) (pred : Fin N → Fin 9 → ℝ)
    (target : Fin N → Fin 15 → ℝ) (weights : Fin N → ℝ) (n : Fin N)
    (hrot : unflatten (fun i : Fin 9 => target n ⟨(i : ℕ), by omega⟩) =
      euler_to_rot (pred n 0) (pred n 1) (pred n 2))
    (htrans : ∀ i : Fin 3,
      target n ⟨9 + (i : ℕ), by omega⟩ = pred n ⟨(i : ℕ) + 3, by omega⟩)
    (hpivot : ∀ i : Fin 3,
      target n ⟨12 + (i : ℕ), by omega⟩ = pred n ⟨(i : ℕ) + 6, by omega⟩) :
    motion_loss N pred target weights n = 0 := by
  simp only [motion_loss, motion_losses_spec]
  rw [hrot]
  have h1 : errAngle (euler_to_rot (pred n 0) (pred n 1) (pred n 2))
      (euler_to_rot (pred n 0) (pred n 1) (pred n 2)) = 0 :=
    errAngle_self_orth _ (euler_to_rot_orth _ _ _)
  have h2 : (fun i : Fin 3 =>
      target n ⟨9 + (i : ℕ), by omega⟩ - pred n ⟨(i : ℕ) + 3, by omega⟩) =
      fun _ => (0 : ℝ) := funext fun i => by rw [htrans i, sub_self]
  have h3 : (fun i : Fin 3 =>
      target n ⟨12 + (i : ℕ), by omega⟩ - pred n ⟨(i : ℕ) + 6, by omega⟩) =
      fun _ => (0 : ℝ) := funext fun i => by rw [hpivot i, sub_self]
  rw [h1, h2, h3, norm3_zero_fun]
  ring

/-- C8 witness: at the all-zero prediction (whose rotation is the
identity) against a target carrying the flattened identity rotation and
zero translation and pivot, the motion loss is zero. -/
theorem C8_witness :
    motion_loss 1 (fun _ _ => 0)
      (fun _ => fun i : Fin 15 =>
        if (i : ℕ) = 0 ∨ (i : ℕ) = 4 ∨ (i : ℕ) = 8 then 1 else 0)
      (fun _ => 1) 0 = 0 := by
  apply C8_loss_zero_on_exact_match
  · have hid : euler_to_rot 0 0 0 = 1 := by
      ext i j
      fin_cases i <;> fin_cases j <;>
        simp [euler_to_rot, euler_to_rot_core, rot_x_mat, rot_y_mat, rot_z_mat,
          Matrix.mul_apply, Fin.sum_univ_three, Matrix.one_apply,
          Matrix.vecHead, Matrix.vecTail]
    rw [hid]
    ext i j
    fin_cases i <;> fin_cases j <;>
      simp [unflatten, Matrix.one_apply]
  · intro i
    fin_cases i <;> norm_num
  · intro i
    fin_cases i <;> norm_num

/-- C1: the detection motion postprocessing feeds the first three
prediction entries to `euler_to_rot` in raw-radian mode, not sine mode:
for the prediction row `[1/2, 0, …, 0]` the rotation entry at row 2,
column 1 (flat index 7) is `sin(1/2)`, whereas the sine interpretation
(`sine_inputs=True`) puts `1/2` there — and `sin(1/2) ≠ 1/2`. -/
theorem C1_angles_treated_as_radians :
    postprocess_detection_motions ![1/2, 0, 0, 0, 0, 0, 0, 0, 0] ⟨7, by omega⟩ =
      Real.sin (1/2) ∧
    (euler_to_rot_sines (1/2) 0 0).map (fun R => R 2 1) = some (1/2) ∧
    Real.sin (1/2) ≠ 1/2 := by
  refine ⟨?_, ?_, ?_⟩
  · have h := postprocess_left ![1/2, 0, 0, 0, 0, 0, 0, 0, 0] ⟨7, by omega⟩
    rw [h]
    norm_num [flattenRot, euler_to_rot, euler_to_rot_core, rot_x_mat, rot_y_mat,
      rot_z_mat, Matrix.mul_apply, Fin.sum_univ_three, Matrix.vecHead, Matrix.vecTail]
  · have h1 : (0:ℝ) ≤ 1 - (1/2) ^ 2 := by norm_num
    have h2 : (0:ℝ) ≤ 1 - 0 ^ 2 := by norm_num
    simp only [euler_to_rot_sines, sqrt_checked, if_pos h1, if_pos h2,
      Option.bind_some, Option.some_bind, Option.map_some]
    norm_num [euler_to_rot_core, rot_x_mat, rot_y_mat, rot_z_mat,
      Matrix.mul_apply, Fin.sum_univ_three, Matrix.vecHead, Matrix.vecTail]
  · exact ne_of_lt (Real.sin_lt (by norm_num))

lemma abs_le_one_of_sq (x : ℝ) (h : 0 ≤ 1 - x ^ 2) : |x| ≤ 1 := by
  rw [abs_le]
  constructor <;> nlinarith

lemma sq_le_one_of_abs (x : ℝ) (h : |x| ≤ 1) : 0 ≤ 1 - x ^ 2 := by
  rw [abs_le] at h
  nlinarith [h.1, h.2]

/-- C3: in sine mode (`sine_inputs=True`), the call succeeds — every
`tf.check_numerics` on the recovered cosines passes — exactly when all
three inputs have absolute value at most 1; any input with `|sin| > 1`
makes the check fail instead of returning a finite garbage matrix. -/
theorem C3_sine_mode_check_iff (x y z : ℝ) :
    (euler_to_rot_sines x y z).isSome = true ↔
      |x| ≤ 1 ∧ |y| ≤ 1 ∧ |z| ≤ 1 := by
  have hgen : (euler_to_rot_sines x y z).isSome = true ↔
      0 ≤ 1 - x ^ 2 ∧ 0 ≤ 1 - y ^ 2 ∧ 0 ≤ 1 - z ^ 2 := by
    simp only [euler_to_rot_sines, sqrt_checked]
    split_ifs <;> simp_all
  rw [hgen]
  constructor
  · rintro ⟨a, b, c⟩
    exact ⟨abs_le_one_of_sq x a, abs_le_one_of_sq y b, abs_le_one_of_sq z c⟩
  · rintro ⟨a, b, c⟩
    exact ⟨sq_le_one_of_abs x a, sq_le_one_of_abs y b, sq_le_one_of_abs z c⟩

/-- C9: `get_3D_coords` maps the pixel at coordinates `(x, y)` with depth
`d` to `((x - x0)·d/f, (y - y0)·d/f, d)`; in particular at the principal
point `(x0, y0)` it yields `(0, 0, d)`. -/
theorem C9_backprojection (depth : ℕ → ℕ → ℝ) (f x0 y0 : ℝ) (row col : ℕ)
    (hf : f ≠ 0) :
    get_3D_coords depth f x0 y0 row col =
      ![((col : ℝ) - x0) * (depth row col / f),
        ((row : ℝ) - y0) * (depth row col / f),
        depth row col] ∧
    ((col : ℝ) = x0 → (row : ℝ) = y0 →
      get_3D_coords depth f x0 y0 row col = ![0, 0, depth row col]) := by
  refine ⟨rfl, fun hx hy => ?_⟩
  simp [get_3D_coords, hx, hy]

/-- C9 witness: a constant depth map of 5, focal length 2, principal point
`(3, 4)`, evaluated at pixel column 3, row 4, gives `(0, 0, 5)`. -/
theorem C9_backprojection_witness :
    get_3D_coords (fun _ _ => 5) 2 3 4 4 3 = ![0, 0, 5] :=
  (C9_backprojection (fun _ _ => 5) 2 3 4 4 3 (by norm_num)).2
    (by norm_num) (by norm_num)

end MotionUtil
